import Mathlib

/-!
Verification of the loader-option engine (`lib/sqlalchemy/orm/strategy_options.py`)
and the DML statement builders (`lib/sqlalchemy/sql/dml.py`) of this repository.

The ORM module's in-scope logic (`Load`, `_UnboundLoad`, `PropertyOption` family,
`EagerLazyOption`, `LoadEagerFromAliasOption`) is embedded shallowly below.
External collaborators that the module consumes through narrow interfaces
(the path registry, entity/mapping introspection, the relationship-strategy
lookup) are modelled from the spec where noted; the control flow of the
excerpted module itself is embedded faithfully, including its dynamic-typing
failure modes (TypeError / AttributeError / KeyError / IndexError), which are
represented as explicit error values of an `Except` result.
-/

namespace SqlSpec

/-- Auxiliary values carried inside a strategy tuple or in `local_opts`
(e.g. `(("lazy", "joined"),)` or `eager_join_type=True`). -/
inductive StratVal
  | sv (s : String)
  | bv (b : Bool)
deriving DecidableEq

/-- A strategy descriptor, e.g. `(("lazy", "joined"),)` in `Load.joined`. -/
abbrev Strategy := List (String × StratVal)

/-- The strategy tuple passed by `Load.joined` / `_UnboundLoad.joined`. -/
def joinedStrategy : Strategy := [("lazy", StratVal.sv "joined")]

/-- A mapped property: its attribute name and, for a relationship property,
the id of the target mapper (`prop.mapper`); `none` models a column property,
on which the `.mapper` attribute does not exist. -/
structure Prp where
  key : String
  target : Option Nat
deriving DecidableEq

/-- Modelled from the spec: a path-registry token is alternately an entity
(mapper id) or a property. -/
inductive PathElem
  | ent (e : Nat)
  | prp (p : Prp)
deriving DecidableEq

/-- Modelled from the spec: a path is the ordered token sequence of a
path-registry position; structural equality is list equality. -/
abbrev PathR := List PathElem

/-- A raw option token: a string key, a class-bound attribute
(`PropComparator`, carrying its property, its `_parententity` id and an
optional `_of_type` entity), or an unrecognised object. -/
inductive Tok
  | str (s : String)
  | cb (p : Prp) (parentEnt : Nat) (ofType : Option Nat)
  | raw (n : Nat)
deriving DecidableEq

/-- The alias argument of `LoadEagerFromAliasOption`: a string name or an
already-inspected selectable. -/
inductive AliasV
  | byName (s : String)
  | bySel (n : Nat)
deriving DecidableEq

/-- A row adapter recorded under `"user_defined_eager_row_processor"`:
`orm` models `orm_util.ORMAdapter(entity, equivalents=...)`, `column` models
`sql_util.ColumnAdapter(alias, equivalents=...)`, `generic` stands for an
arbitrary adapter already present in `query._polymorphic_adapters`. -/
inductive Adapter
  | orm (entity : Nat) (equivalents : Nat)
  | column (al : AliasV) (equivalents : Nat)
  | generic (n : Nat)
deriving DecidableEq

/-- Values stored in a query's attribute context. -/
inductive CtxVal
  | loader (path : PathR) (strategy : Option Strategy)
  | pathWithPoly (entity : Nat)
  | optVal (v : StratVal)
  | rowProc (a : Option Adapter)
deriving DecidableEq

/-- A context key: `(key-name, path)`, as in `PathRegistry.set`. -/
abbrev CtxKey := String × PathR

/-- Modelled from the spec: the attribute context is a mapping keyed by
`(path, key-name)`; last-set value wins, absent keys read as `none`. -/
abbrev Ctx := List (CtxKey × CtxVal)

def ctxGet : Ctx → CtxKey → Option CtxVal
  | [], _ => none
  | e :: c, k => if e.1 = k then some e.2 else ctxGet c k

def ctxErase : Ctx → CtxKey → Ctx
  | [], _ => []
  | e :: c, k => if e.1 = k then ctxErase c k else e :: ctxErase c k

/-- `attributes[(key, path)] = value`; represented so that the number of
entries equals the number of distinct keys present. -/
def ctxSet (c : Ctx) (k : CtxKey) (v : CtxVal) : Ctx :=
  (k, v) :: ctxErase c k

/-- `PathRegistry.setdefault`. -/
def ctxSetdefault (c : Ctx) (k : CtxKey) (v : CtxVal) : Ctx :=
  if (ctxGet c k).isSome then c else ctxSet c k v

/-- Python exceptions that the embedded code can raise.  The argument-error
kinds correspond to the distinct `sa_exc.ArgumentError` messages of the
source module. -/
inductive ArgKind
  | onlyExpressionEntities
  | cantFindProperty
  | wildcardAlone
  | invalidTokenType
deriving DecidableEq

inductive OErr
  | argumentError (k : ArgKind)
  | typeError
  | attributeError
  | keyError
  | indexError
deriving DecidableEq

/-- A mapped entity together with its attribute dictionary
(`inspect(entity).attrs`). -/
structure EntityM where
  id : Nat
  attrs : List (String × Prp)
deriving DecidableEq

/-- Modelled from the spec: the entity/mapping introspection interface
("given an entity, return its mapping metadata and properties").
`aliasedIds` answers `_is_aliased_class`, `classToMapper` answers
`_class_to_mapper`, `mapperOf` answers `inspect(x).mapper`, and `withPoly`
gives the id of the aliased entity that `orm_util.with_polymorphic`
synthesizes for a mapper. -/
structure World where
  entities : List EntityM
  aliasedIds : List Nat
  classToMapper : List (Nat × Nat)
  mapperOf : List (Nat × Nat)
  withPoly : List (Nat × Nat)
deriving DecidableEq

def natLookup : List (Nat × Nat) → Nat → Option Nat
  | [], _ => none
  | kv :: l, n => if kv.1 = n then some kv.2 else natLookup l n

def classToMapperW (w : World) (n : Nat) : Nat := (natLookup w.classToMapper n).getD n

def mapperOfW (w : World) (n : Nat) : Nat := (natLookup w.mapperOf n).getD n

def withPolyW (w : World) (n : Nat) : Nat := (natLookup w.withPoly n).getD n

def isAliasedW (w : World) (n : Nat) : Bool := w.aliasedIds.contains n

def entLookup : List EntityM → Nat → Option EntityM
  | [], _ => none
  | en :: l, e => if en.id = e then some en else entLookup l e

def attrLookup : List (String × Prp) → String → Option Prp
  | [], _ => none
  | kv :: l, k => if kv.1 = k then some kv.2 else attrLookup l k

/-- `path.entity.attrs[name]`: the property named `name` on entity `e`. -/
def lookupAttr (w : World) (e : Nat) (k : String) : Option Prp :=
  match entLookup w.entities e with
  | none => none
  | some en => attrLookup en.attrs k

/-- One `_MapperEntity` of a query: its `entity_zero` id and the set of ids
for which `corresponds_to` answers true. -/
structure MapperEntity where
  entity_zero : Nat
  corr : List Nat
deriving DecidableEq

/-- The query surface consumed by the option engine: `_mapper_entities`,
`_current_path.path` and `_polymorphic_adapters`
(`_attributes` is threaded separately as a `Ctx`). -/
structure Query where
  mapper_entities : List MapperEntity
  current_path : PathR
  polymorphic_adapters : List (Nat × Adapter)
deriving DecidableEq

def adapterLookup : List (Nat × Adapter) → Nat → Option Adapter
  | [], _ => none
  | kv :: l, n => if kv.1 = n then some kv.2 else adapterLookup l n

/-- The last token of a path (`PathRegistry` tip). -/
def pathTip : PathR → Option PathElem
  | [] => none
  | [x] => some x
  | _ :: x :: xs => pathTip (x :: xs)

/-- `path.has_entity`: an entity-terminated path always has an entity; a
property-terminated path has one iff its property is a relationship
(`hasattr(prop, "mapper")`). -/
def pathHasEntity (p : PathR) : Bool :=
  match pathTip p with
  | some (PathElem.ent _) => true
  | some (PathElem.prp pr) => pr.target.isSome
  | none => false

/-- `path.entity_path`: itself for an entity-terminated path, the extension
by `prop.mapper` for a relationship-terminated path. -/
def pathEntityPath (p : PathR) : PathR :=
  match pathTip p with
  | some (PathElem.prp pr) =>
    match pr.target with
    | some e => p ++ [PathElem.ent e]
    | none => p
  | _ => p

/-- `path.entity`: the entity at the tip (for a property tip, `prop.mapper`,
which may be absent). -/
def pathTipEntity (p : PathR) : Option Nat :=
  match pathTip p with
  | some (PathElem.ent e) => some e
  | some (PathElem.prp pr) => pr.target
  | none => none

/-- `path.parent`. -/
def pathParent (p : PathR) : PathR := p.dropLast

/-- The tail of `Load._generate_path` (lines 58-60): if the extended path
has an entity, step onto `entity_path`. -/
def finishGeneratePath (path : PathR) (ctx : Ctx) : PathR × Ctx :=
  if pathHasEntity path then (pathEntityPath path, ctx) else (path, ctx)

/-- `Load._generate_path` (lines 36-60).  A string token is looked up on
`path.entity.attrs` (a miss is a KeyError; a property-terminated column path
has `path.entity = None`, an AttributeError).  A class-bound token with
`_of_type` synthesizes a polymorphic target when the cast target is not an
aliased class, recording `"path_with_polymorphic"` at
`path.entity_path[prop]`; an unrecognised token raises AttributeError at
`attr.property`. -/
def loadGeneratePath (w : World) (path : PathR) (ctx : Ctx) (attr : Tok) :
    Except OErr (PathR × Ctx) :=
  match attr with
  | Tok.str s =>
    match pathTipEntity path with
    | none => Except.error OErr.attributeError
    | some e =>
      match lookupAttr w e s with
      | none => Except.error OErr.keyError
      | some p => Except.ok (finishGeneratePath (path ++ [PathElem.prp p]) ctx)
  | Tok.cb p _ ofType =>
    match ofType with
    | none => Except.ok (finishGeneratePath (path ++ [PathElem.prp p]) ctx)
    | some ac =>
      let pe := mapperOfW w ac
      if isAliasedW w ac then
        Except.ok (finishGeneratePath (path ++ [PathElem.prp p, PathElem.ent pe]) ctx)
      else
        Except.ok (finishGeneratePath (path ++ [PathElem.prp p, PathElem.ent pe])
          (ctxSet ctx ("path_with_polymorphic", pathEntityPath path ++ [PathElem.prp p])
            (CtxVal.pathWithPoly (withPolyW w pe))))
  | Tok.raw _ => Except.error OErr.attributeError

/-- A bound `Load` option: its resolved path, strategy and private context. -/
structure FullLoad where
  path : PathR
  strategy : Option Strategy
  context : Ctx
deriving DecidableEq

/-- `Load.__init__(entity)`: root path of the inspected entity, empty
context, class-level `strategy = None`. -/
def loadInit (e : Nat) : FullLoad :=
  { path := [PathElem.ent e], strategy := none, context := [] }

/-- `Load._set_strategy` (lines 62-67): generative clone with the extended
path and the new strategy; a non-null strategy registers the clone under
`path.parent → "loader"`. -/
def loadSetStrategy (w : World) (l : FullLoad) (attr : Tok) (strat : Option Strategy) :
    Except OErr FullLoad :=
  match loadGeneratePath w l.path l.context attr with
  | Except.error e => Except.error e
  | Except.ok (path, ctx) =>
    let ctx2 := if strat.isSome then
        ctxSet ctx ("loader", pathParent path) (CtxVal.loader path strat)
      else ctx
    Except.ok { path := path, strategy := strat, context := ctx2 }

/-- `Load._set_options` target-and-write logic (lines 99-105), shared with
`_bind_loader`'s final `loader._set_options(**self.local_opts)`. -/
def setOptionsOnPath (path : PathR) (kw : List (String × StratVal)) (ctx : Ctx) : Ctx :=
  let target := if pathHasEntity path then pathParent path else path
  kw.foldl (fun c kv => ctxSet c (kv.1, target) (CtxVal.optVal kv.2)) ctx

/-- `Load._set_options` (lines 99-105). -/
def loadSetOptions (l : FullLoad) (kw : List (String × StratVal)) : FullLoad :=
  { l with context := setOptionsOnPath l.path kw l.context }

/-- `Load.joined` (lines 90-97): set the `(("lazy", "joined"),)` strategy,
then, when `innerjoin` is given, write the `eager_join_type` directive
through `_set_options` (an in-place mutation of the returned loader). -/
def loadJoined (w : World) (l : FullLoad) (attr : Tok) (innerjoin : Option Bool) :
    Except OErr FullLoad :=
  match loadSetStrategy w l attr (some joinedStrategy) with
  | Except.error e => Except.error e
  | Except.ok l2 =>
    match innerjoin with
    | none => Except.ok l2
    | some b => Except.ok (loadSetOptions l2 [("eager_join_type", StratVal.bv b)])

/-- An `_UnboundLoad`'s per-clone state: its raw token tuple `path`, its
strategy and its `local_opts`.  The shared `_to_bind` set is threaded
separately, since `Generative._generate` copies `__dict__` shallowly and so
every clone aliases one and the same set object. -/
structure UnboundOpt where
  path : List Tok
  strategy : Option Strategy
  local_opts : List (String × StratVal)
deriving DecidableEq

/-- `_UnboundLoad.__init__`: empty token path, empty `_to_bind`, empty
`local_opts`. -/
def emptyUnbound : UnboundOpt := { path := [], strategy := none, local_opts := [] }

/-- `_UnboundLoad.joined`, i.e. `Load.joined` running over the unbound
`_set_strategy` (lines 150-155) and `_set_options` (lines 125-126):
the generative clone gets `path + (attr,)`, a reset `local_opts`, the
joined strategy, and is added to the shared `_to_bind` set; when `innerjoin`
is given, `_set_options` then mutates that same clone's `local_opts` in
place (the embedding applies the mutation before the insertion, which is
observationally identical because the set holds the object itself). -/
def joinedU (opt : UnboundOpt) (bind : List UnboundOpt) (attr : Tok)
    (innerjoin : Option Bool) : UnboundOpt × List UnboundOpt :=
  let c0 : UnboundOpt :=
    { path := opt.path ++ [attr], strategy := some joinedStrategy, local_opts := [] }
  let c := match innerjoin with
    | none => c0
    | some b => { c0 with local_opts := [("eager_join_type", StratVal.bv b)] }
  (c, bind ++ [c])

/-- `_UnboundLoad.default`, i.e. `_set_strategy(attr, None)`: the clone is
not added to `_to_bind` because the strategy is null. -/
def defaultU (opt : UnboundOpt) (bind : List UnboundOpt) (attr : Tok) :
    UnboundOpt × List UnboundOpt :=
  ({ path := opt.path ++ [attr], strategy := none, local_opts := [] }, bind)

/-- `key.split(".")`, character by character (Python `str.split` on a
one-character separator). -/
def splitDotChars : List Char → List Char → List String
  | [], acc => [String.mk acc.reverse]
  | c :: cs, acc =>
    if c = '.' then String.mk acc.reverse :: splitDotChars cs []
    else splitDotChars cs (c :: acc)

def splitDot (s : String) : List String := splitDotChars s.toList []

/-- `all_tokens = [token for key in keys for token in key.split(".")]`
(line 138; only string keys are modelled — a non-string key would raise
AttributeError at `key.split` in this source). -/
def splitDots (keys : List String) : List String := keys.flatMap splitDot

/-- One step of the `_from_keys` loop (lines 140-144) with `meth = joined`. -/
def fromKeysStep (chained : Bool) (innerjoin : Option Bool)
    (ob : UnboundOpt × List UnboundOpt) (t : String) : UnboundOpt × List UnboundOpt :=
  if chained then joinedU ob.1 ob.2 (Tok.str t) innerjoin
  else defaultU ob.1 ob.2 (Tok.str t)

/-- `_UnboundLoad._from_keys(cls.joined, keys, chained, kw)` (lines 134-147),
the body of `_joinedload` / `_joinedload_all`.  An empty token list raises
IndexError at `all_tokens[-1]`.  Returns the final option together with the
shared `_to_bind` set. -/
def fromKeysJoined (keys : List String) (chained : Bool) (innerjoin : Option Bool) :
    Except OErr (UnboundOpt × List UnboundOpt) :=
  let toks := splitDots keys
  match toks.getLast? with
  | none => Except.error OErr.indexError
  | some last =>
    let ob := toks.dropLast.foldl (fromKeysStep chained innerjoin) (emptyUnbound, [])
    Except.ok (joinedU ob.1 ob.2 (Tok.str last) innerjoin)

/-- `_UnboundLoad._find_entity_basestring` (lines 245-259), identical in
`PropertyOption._find_entity_basestring` (lines 708-722): the token is never
consulted; the first mapper entity, when any exists, is returned
unconditionally, and with no mapper entities the result is an ArgumentError
in raise mode and `None` otherwise. -/
def findEntityBasestring (q : Query) (_tok : String) (raiseerr : Bool) :
    Except OErr (Option MapperEntity) :=
  match q.mapper_entities with
  | ent :: _ => Except.ok (some ent)
  | [] =>
    if raiseerr then Except.error (OErr.argumentError ArgKind.onlyExpressionEntities)
    else Except.ok none

def findCorresponding : List MapperEntity → Nat → Option MapperEntity
  | [], _ => none
  | e :: es, n => if e.corr.contains n then some e else findCorresponding es n

/-- `_UnboundLoad._find_entity_prop_comparator` (lines 218-243).  Note the
flag parameter is named `conditional` and the body raises when it is
*false*, although the caller at line 179-183 passes `raiseerr` — the
raise/no-raise sense is inverted relative to the sibling
`PropertyOption._find_entity_prop_comparator` (lines 681-706). -/
def findEntityPropComparatorU (w : World) (q : Query) (_tok : String) (mapper : Nat)
    (conditional : Bool) : Except OErr (Option MapperEntity) :=
  let searchfor := if isAliasedW w mapper then mapper else classToMapperW w mapper
  match findCorresponding q.mapper_entities searchfor with
  | some ent => Except.ok (some ent)
  | none =>
    if !conditional then
      if q.mapper_entities.isEmpty then
        Except.error (OErr.argumentError ArgKind.onlyExpressionEntities)
      else Except.error (OErr.argumentError ArgKind.cantFindProperty)
    else Except.ok none

/-- The token-replay loop of `_bind_loader` (lines 197-198):
`for token in start_path: loader.path = loader._generate_path(loader.path, token)`. -/
def bindPathLoop (w : World) (path : PathR) (ctx : Ctx) : List Tok → Except OErr (PathR × Ctx)
  | [] => Except.ok (path, ctx)
  | t :: ts =>
    match loadGeneratePath w path ctx t with
    | Except.error e => Except.error e
    | Except.ok (path2, ctx2) => bindPathLoop w path2 ctx2 ts

/-- `_UnboundLoad._bind_loader` (lines 166-204).  With a non-empty current
path the source calls `self._chop_path(start_path, current_path)` (line 172)
— but `_chop_path` (lines 209-216) is defined without a `self` parameter, so
the bound-method call supplies three arguments to a two-parameter function
and raises TypeError before any chopping can happen (its body would also
call `.pairs()` on the `list` built at line 170 and `.property` on string
tokens).  An empty remaining token tuple raises IndexError at
`start_path[0]`; a `None` result of the entity finders raises
AttributeError at `entity.entity_zero` (line 190, which has no `None`
guard); otherwise the tokens are replayed through `Load._generate_path`
onto a fresh bound loader whose `"loader"` directive is keyed at
`path.parent` when the path has an entity and at the path itself otherwise,
after which `local_opts` are written via `Load._set_options`. -/
def bindLoader (w : World) (q : Query) (ctx : Ctx) (o : UnboundOpt) (raiseerr : Bool) :
    Except OErr Ctx :=
  match q.current_path with
  | _ :: _ => Except.error OErr.typeError
  | [] =>
    match o.path with
    | [] => Except.error OErr.indexError
    | tok0 :: _ =>
      let entRes : Except OErr (Option MapperEntity) :=
        match tok0 with
        | Tok.str s => findEntityBasestring q s raiseerr
        | Tok.cb p parentEnt _ => findEntityPropComparatorU w q p.key parentEnt raiseerr
        | Tok.raw _ => Except.error (OErr.argumentError ArgKind.invalidTokenType)
      match entRes with
      | Except.error e => Except.error e
      | Except.ok none => Except.error OErr.attributeError
      | Except.ok (some ent) =>
        match bindPathLoop w [PathElem.ent ent.entity_zero] ctx o.path with
        | Except.error e => Except.error e
        | Except.ok (path, ctx2) =>
          let key : CtxKey :=
            if pathHasEntity path then ("loader", pathParent path) else ("loader", path)
          let ctx3 := ctxSet ctx2 key (CtxVal.loader path o.strategy)
          Except.ok (setOptionsOnPath path o.local_opts ctx3)

/-- The `for val in self._to_bind: val._bind_loader(query, context, raiseerr)`
loop of `_UnboundLoad._process` (lines 128-132). -/
def unboundProcessFold (w : World) (q : Query) (ctx : Ctx) (raiseerr : Bool) :
    List UnboundOpt → Except OErr Ctx
  | [] => Except.ok ctx
  | o :: os =>
    match bindLoader w q ctx o raiseerr with
    | Except.error e => Except.error e
    | Except.ok ctx2 => unboundProcessFold w q ctx2 raiseerr os

/-- `_UnboundLoad._process` (lines 128-132): bind every `_to_bind` member
into a fresh context dict; the result is the delta that
`query._attributes.update(context)` then merges into the query. -/
def unboundProcess (w : World) (q : Query) (opts : List UnboundOpt) (raiseerr : Bool) :
    Except OErr Ctx :=
  unboundProcessFold w q [] raiseerr opts

/-- The `lazy` argument of `EagerLazyOption`:
`True` / `False` / `"joined"` / `"subquery"` / `"immediate"` / `None`. -/
inductive LazyVal
  | ltrue
  | lfalse
  | ljoined
  | lsubquery
  | limmediate
  | lnone
deriving DecidableEq

/-- The concrete relationship-loading strategy classes. -/
inductive StrategyCls
  | lazyLoader
  | joinedLoader
  | subqueryLoader
  | immediateLoader
  | noLoader
deriving DecidableEq

/-- Modelled from the spec: `properties.RelationshipProperty._strategy_lookup`
(not under src/), the lookup table from a `lazy` value to a concrete
relationship-loading strategy class (`True`=lazy, `False`/`"joined"`=
eager-join, `"subquery"`, `"immediate"`, `None`=no-load). -/
def strategyLookup : LazyVal → StrategyCls
  | LazyVal.ltrue => StrategyCls.lazyLoader
  | LazyVal.lfalse => StrategyCls.joinedLoader
  | LazyVal.ljoined => StrategyCls.joinedLoader
  | LazyVal.lsubquery => StrategyCls.subqueryLoader
  | LazyVal.limmediate => StrategyCls.immediateLoader
  | LazyVal.lnone => StrategyCls.noLoader

/-- The state an `EagerLazyOption` holds after `__init__`. -/
structure EagerLazyOpt where
  key : List Tok
  lazy : LazyVal
  chained : Bool
  propagate_to_loaders : Bool
  strategy_cls : StrategyCls
deriving DecidableEq

/-- `EagerLazyOption.__init__` (lines 900-915).  Only `key[0]` is tested
against the wildcard `"*"`; when it matches and further tokens exist the
ambiguous-wildcard ArgumentError is raised, and when it is alone the key is
rewritten to `("relationship:*",)` and `propagate_to_loaders` is forced to
`False`.  An empty key tuple raises IndexError at `key[0]`. -/
def eagerLazyOptionInit (key : List Tok) (lazy : LazyVal) (chained propagate : Bool) :
    Except OErr EagerLazyOpt :=
  match key with
  | [] => Except.error OErr.indexError
  | k0 :: _ =>
    if k0 = Tok.str "*" then
      if key.length ≠ 1 then Except.error (OErr.argumentError ArgKind.wildcardAlone)
      else Except.ok { key := [Tok.str "relationship:*"], lazy := lazy, chained := chained,
                       propagate_to_loaders := false, strategy_cls := strategyLookup lazy }
    else Except.ok { key := key, lazy := lazy, chained := chained,
                     propagate_to_loaders := propagate, strategy_cls := strategyLookup lazy }

/-- `(root_mapper, prop) = path.path[-2:]` — the final (entity, property)
pair of a resolved path; anything else fails the tuple unpack / later
attribute accesses. -/
def lastTwo (p : PathR) : Option (Nat × Prp) :=
  match pathTip p.dropLast, pathTip p with
  | some (PathElem.ent m), some (PathElem.prp pr) => some (m, pr)
  | _, _ => none

/-- The `for path in paths[0:-1]` loop of
`LoadEagerFromAliasOption.process_query_property` (lines 948-954):
`setdefault` the polymorphic adapter of `prop.mapper` on every non-final
path (`prop.mapper` on a column property raises AttributeError). -/
def eagerChainLoop (q : Query) : Ctx → List PathR → Except OErr Ctx
  | attrs, [] => Except.ok attrs
  | attrs, pa :: rest =>
    match lastTwo pa with
    | none => Except.error OErr.typeError
    | some (_, pr) =>
      match pr.target with
      | none => Except.error OErr.attributeError
      | some m =>
        eagerChainLoop q
          (ctxSetdefault attrs ("user_defined_eager_row_processor", pa)
            (CtxVal.rowProc (adapterLookup q.polymorphic_adapters m))) rest

/-- `LoadEagerFromAliasOption.process_query_property` (lines 947-976).
With an explicit alias a ColumnAdapter over that alias is recorded; without
one, if a `"path_with_polymorphic"` entry exists at the final path its
entity is wrapped in an ORMAdapter, else the query's polymorphic-adapter
table is consulted; the result is written (for the final path, with `set`,
overriding anything the chained loop set-defaulted). -/
def eagerFromAliasProcess (q : Query) (attrs : Ctx) (al : Option AliasV)
    (chained : Bool) (paths : List PathR) : Except OErr Ctx :=
  let loopRes : Except OErr Ctx :=
    if chained then eagerChainLoop q attrs paths.dropLast else Except.ok attrs
  match loopRes with
  | Except.error e => Except.error e
  | Except.ok attrs2 =>
    match paths.getLast? with
    | none => Except.error OErr.indexError
    | some lastP =>
      match lastTwo lastP with
      | none => Except.error OErr.typeError
      | some (_, pr) =>
        match al with
        | some a =>
          match pr.target with
          | none => Except.error OErr.attributeError
          | some m =>
            Except.ok (ctxSet attrs2 ("user_defined_eager_row_processor", lastP)
              (CtxVal.rowProc (some (Adapter.column a m))))
        | none =>
          match ctxGet attrs2 ("path_with_polymorphic", lastP) with
          | some (CtxVal.pathWithPoly e) =>
            match pr.target with
            | none => Except.error OErr.attributeError
            | some m =>
              Except.ok (ctxSet attrs2 ("user_defined_eager_row_processor", lastP)
                (CtxVal.rowProc (some (Adapter.orm e m))))
          | some _ => Except.error OErr.attributeError
          | none =>
            match pr.target with
            | none => Except.error OErr.attributeError
            | some m =>
              Except.ok (ctxSet attrs2 ("user_defined_eager_row_processor", lastP)
                (CtxVal.rowProc (adapterLookup q.polymorphic_adapters m)))

/-! ### DML statement builders (`lib/sqlalchemy/sql/dml.py`)

Column keys are strings and bound values are modelled as naturals; a Python
parameter dict is an association list (Python dict insertion-order details
are irrelevant to the mapping-level claims, so assignment is represented as
remove-then-prepend). -/

/-- A parameter dictionary: column key to bound value. -/
abbrev AList := List (String × Nat)

def dGet : AList → String → Option Nat
  | [], _ => none
  | kv :: d, k => if kv.1 = k then some kv.2 else dGet d k

def dErase : AList → String → AList
  | [], _ => []
  | kv :: d, k => if kv.1 = k then dErase d k else kv :: dErase d k

/-- `d[k] = v`. -/
def dSet (d : AList) (k : String) (v : Nat) : AList := (k, v) :: dErase d k

/-- `d.update(p)`: later keys override on conflict. -/
def dUpdate (d p : AList) : AList := p.foldl (fun acc kv => dSet acc kv.1 kv.2) d

/-- `dict((c.key, pval) for c, pval in zip(self.table.c, p))`. -/
def zipDict (cols : List String) (r : List Nat) : AList :=
  (cols.zip r).foldl (fun acc kv => dSet acc kv.1 kv.2) []

/-- One element of a multi-values list: a dict or a positional tuple. -/
inductive PElem
  | pd (d : AList)
  | pr (r : List Nat)
deriving DecidableEq

/-- A positional argument to `values()` / the `values` constructor argument:
a dict, a positional tuple of scalars, or a list of dicts/tuples. -/
inductive PArg
  | argDict (d : AList)
  | argRow (r : List Nat)
  | argList (l : List PElem)
deriving DecidableEq

/-- The processed `self.parameters`: a single dict or a list of dicts. -/
inductive ProcParams
  | single (d : AList)
  | multi (l : List AList)
deriving DecidableEq

/-- The distinct exceptions of the DML construction paths
(`exc.InvalidRequestError` / `exc.ArgumentError` variants, plus the dynamic
IndexError / TypeError cases). -/
inductive DMLErr
  | indexError
  | mixingError
  | multiNotSupported
  | alreadyFromSelect
  | alreadyMultiParams
  | kwargsWithMulti
  | multiplePositional
  | typeError
deriving DecidableEq

/-- `self._return_defaults`: `False` initially, `True` for "all
server-generated columns", or an explicit column tuple. -/
inductive RetDef
  | boolv (b : Bool)
  | colsv (cs : List Nat)
deriving DecidableEq

/-- The statement-builder state the claims consult.  `supportsMulti`
distinguishes `Insert` (`_supports_multi_parameters = True`) from `Update`;
`selectSet` models `self.select is not None`; RETURNING columns are opaque
ids. -/
structure Stmt where
  cols : List String
  supportsMulti : Bool
  hasMulti : Bool
  parameters : Option ProcParams
  selectSet : Bool
  returning_ : Option (List Nat)
  returnDefaults : RetDef
deriving DecidableEq

/-- `Insert.__init__(table)` with `values=None`, `returning=None`,
`return_defaults=False`: `_process_colparams(None)` leaves
`parameters = None`, `_has_multi_parameters = False`. -/
def mkInsert (cols : List String) : Stmt :=
  { cols := cols, supportsMulti := true, hasMulti := false, parameters := none,
    selectSet := false, returning_ := none, returnDefaults := RetDef.boolv false }

/-- `Update.__init__(table)` likewise (`ValuesBase` with
`_supports_multi_parameters = False`). -/
def mkUpdate (cols : List String) : Stmt := { mkInsert cols with supportsMulti := false }

/-- `process_single` inside `UpdateBase._process_colparams` (lines 31-38). -/
def processSingle (cols : List String) : PElem → AList
  | PElem.pd d => d
  | PElem.pr r => zipDict cols r

/-- `UpdateBase._process_colparams` (lines 30-50).  A list (or tuple) whose
first element is itself a list/tuple/dict is a multi-parameter set — checked
against `_supports_multi_parameters` — and everything else goes through
`process_single`; indexing `parameters[0]` on an empty list/tuple raises
IndexError. -/
def processColparams (s : Stmt) (p : PArg) : Except DMLErr (ProcParams × Bool) :=
  match p with
  | PArg.argList [] => Except.error DMLErr.indexError
  | PArg.argList l =>
    if s.supportsMulti then Except.ok (ProcParams.multi (l.map (processSingle s.cols)), true)
    else Except.error DMLErr.multiNotSupported
  | PArg.argRow [] => Except.error DMLErr.indexError
  | PArg.argRow r => Except.ok (ProcParams.single (zipDict s.cols r), false)
  | PArg.argDict d => Except.ok (ProcParams.single d, false)

/-- `ValuesBase.values(*args, **kwargs)` (lines 172-309): reject
INSERT-from-SELECT mixes and kwargs-on-multi; reject more than one
positional argument; process the value set, extending an existing
multi-list (mixing error when the new set is single) or merging into an
existing dict (mixing error when the new set is multi); finally merge
kwargs into the single-dict form. -/
def valuesM (s : Stmt) (args : List PArg) (kw : AList) : Except DMLErr Stmt :=
  if s.selectSet then Except.error DMLErr.alreadyFromSelect
  else if s.hasMulti ∧ kw ≠ [] then Except.error DMLErr.alreadyMultiParams
  else
    match args with
    | _ :: _ :: _ => Except.error DMLErr.multiplePositional
    | _ =>
      let v : PArg := match args with | [a] => a | _ => PArg.argDict []
      let afterParams : Except DMLErr Stmt :=
        match s.parameters with
        | none =>
          match processColparams s v with
          | Except.error e => Except.error e
          | Except.ok (p, hm) => Except.ok { s with parameters := some p, hasMulti := hm }
        | some pp =>
          if s.hasMulti then
            match pp with
            | ProcParams.multi l =>
              match processColparams s v with
              | Except.error e => Except.error e
              | Except.ok (pnew, hm) =>
                if hm then
                  match pnew with
                  | ProcParams.multi l2 =>
                    Except.ok
                      { s with parameters := some (ProcParams.multi (l ++ l2)), hasMulti := hm }
                  | ProcParams.single _ => Except.error DMLErr.typeError
                else Except.error DMLErr.mixingError
            | ProcParams.single _ => Except.error DMLErr.typeError
          else
            match pp with
            | ProcParams.single d =>
              match processColparams s v with
              | Except.error e => Except.error e
              | Except.ok (pnew, hm) =>
                if hm then Except.error DMLErr.mixingError
                else
                  match pnew with
                  | ProcParams.single d2 =>
                    Except.ok
                      { s with parameters := some (ProcParams.single (dUpdate d d2)), hasMulti := hm }
                  | ProcParams.multi _ => Except.error DMLErr.typeError
            | ProcParams.multi _ => Except.error DMLErr.typeError
      match afterParams with
      | Except.error e => Except.error e
      | Except.ok s2 =>
        if kw = [] then Except.ok s2
        else if s2.hasMulti then Except.error DMLErr.kwargsWithMulti
        else
          match s2.parameters with
          | some (ProcParams.single d) =>
            Except.ok { s2 with parameters := some (ProcParams.single (dUpdate d kw)) }
          | _ => Except.error DMLErr.typeError

/-- `UpdateBase.returning(*cols)` (lines 76-112): the generative clone's
`_returning` is assigned the given tuple wholesale. -/
def returningM (s : Stmt) (cols : List Nat) : Stmt := { s with returning_ := some cols }

/-- `ValuesBase.return_defaults(*cols)` (lines 311-361):
`self._return_defaults = cols or True` — the empty tuple becomes the
boolean-`True` sentinel. -/
def returnDefaultsM (s : Stmt) (cols : List Nat) : Stmt :=
  { s with returnDefaults := if cols = [] then RetDef.boolv true else RetDef.colsv cols }

/-- Extract the payload of a successful computation (used only to name
concrete evaluation results in closed statements). -/
def exOk {ε α : Type} (x : Except ε α) (d : α) : α :=
  match x with
  | Except.ok v => v
  | Except.error _ => d

/-! ### Chain resolution vocabulary

To state properties of dotted relationship chains we describe, along the
data of the world, which token lists resolve step by step as relationship
attributes, and what key paths their resolution produces. -/

/-- `chainOKb w e ts` holds when, starting at entity `e`, every token of
`ts` names a relationship property on the entity reached so far. -/
def chainOKb (w : World) (e : Nat) : List String → Bool
  | [] => true
  | t :: ts =>
    match lookupAttr w e t with
    | some p =>
      match p.target with
      | some e2 => chainOKb w e2 ts
      | none => false
    | none => false

/-- The path tokens appended past the root by replaying `ts` from entity
`e`: `[prop₁, ent₁, prop₂, ent₂, …]`. -/
def chainTail (w : World) (e : Nat) : List String → PathR
  | [] => []
  | t :: ts =>
    match lookupAttr w e t with
    | some p =>
      match p.target with
      | some e2 => PathElem.prp p :: PathElem.ent e2 :: chainTail w e2 ts
      | none => []
    | none => []

/-- The context key path for the chain `ts` from `e`:
`[ent e, prop₁, ent₁, prop₂, …, propₙ]` without the final entity —
the parent of the fully resolved entity path. -/
def chainKeyPath (w : World) (e : Nat) : List String → PathR
  | [] => []
  | t :: ts =>
    match lookupAttr w e t with
    | some p =>
      match p.target with
      | some e2 => PathElem.ent e :: PathElem.prp p :: chainKeyPath w e2 ts
      | none => []
    | none => []

/-- The entity reached at the end of the chain. -/
def chainEnd (w : World) (e : Nat) : List String → Nat
  | [] => e
  | t :: ts =>
    match lookupAttr w e t with
    | some p =>
      match p.target with
      | some e2 => chainEnd w e2 ts
      | none => e
    | none => e

/-- The list of clones that the chained `_from_keys` loop adds to the
shared `_to_bind` set while walking the token list `ts` after the tokens
`base` have already been consumed. -/
def chainClones (base : List Tok) : List String → List UnboundOpt
  | [] => []
  | t :: ts =>
    { path := base ++ [Tok.str t], strategy := some joinedStrategy, local_opts := [] }
      :: chainClones (base ++ [Tok.str t]) ts

/-- The attribute-context delta accumulated by binding, in order, the
chained clones for the tokens `ts` when the tokens `done` are already
consumed: one `"loader"` entry per consumed prefix. -/
def c2Fold (w : World) (e0 : Nat) (done : List String) : List String → Ctx → Ctx
  | [], ctx => ctx
  | t :: ts, ctx =>
    c2Fold w e0 (done ++ [t]) ts
      (ctxSet ctx ("loader", chainKeyPath w e0 (done ++ [t]))
        (CtxVal.loader
          (chainKeyPath w e0 (done ++ [t]) ++ [PathElem.ent (chainEnd w e0 (done ++ [t]))])
          (some joinedStrategy)))

/-! ### Concrete inputs used by the per-claim evaluations -/

/-- A world with one entity, id 0, carrying relationship `a → 1`. -/
def c1World : World := ⟨[⟨0, [("a", ⟨"a", some 1⟩)]⟩], [], [], [], []⟩

/-- A query in a secondary load: one mapper entity and a non-empty
`_current_path` of one (entity, property) pair. -/
def c1Query : Query := ⟨[⟨0, [0]⟩], [PathElem.ent 0, PathElem.prp ⟨"r", some 1⟩], []⟩

/-- The `_to_bind` set of `joinedload("a")`. -/
def c1Bind : List UnboundOpt := (exOk (fromKeysJoined ["a"] false none) (emptyUnbound, [])).2

/-- A world with one entity, id 0. -/
def c3World : World := ⟨[⟨0, [("r", ⟨"r", some 1⟩)]⟩], [], [], [], []⟩

/-- A primary-load query (empty current path) whose single mapper entity
corresponds only to mapper 0. -/
def c3Query : Query := ⟨[⟨0, [0]⟩], [], []⟩

/-- The `_to_bind` set of a joined load addressed by a class-bound attribute
whose `_parententity` (id 7) corresponds to no entity of the query. -/
def c3Bind : List UnboundOpt :=
  (joinedU emptyUnbound [] (Tok.cb ⟨"r2", some 2⟩ 7 none) none).2

/-- A world with one entity, id 0, carrying relationship `r → 1`. -/
def c8World : World := ⟨[⟨0, [("r", ⟨"r", some 1⟩)]⟩], [], [], [], []⟩

/-- The concrete final path, attribute context and query of the C7
witness. -/
def c7Path : PathR := [PathElem.ent 0, PathElem.prp ⟨"r", some 1⟩]

def c7Attrs : Ctx := [(("path_with_polymorphic", c7Path), CtxVal.pathWithPoly 42)]

def c7Query : Query := ⟨[], [], [(1, Adapter.generic 9)]⟩

/-- A two-step relationship chain `0 ─a→ 1 ─b→ 2` for the C2 witness. -/
def c2World : World :=
  ⟨[⟨0, [("a", ⟨"a", some 1⟩)]⟩, ⟨1, [("b", ⟨"b", some 2⟩)]⟩], [], [], [], []⟩

/-- A primary-load query over `c2World`, rooted at entity 0. -/
def c2Query : Query := ⟨[⟨0, [0]⟩], [], []⟩

/-! ### Helper lemmas on the context store and on paths -/

theorem ctxGet_ctxSet_self (c : Ctx) (k : CtxKey) (v : CtxVal) :
    ctxGet (ctxSet c k v) k = some v := by
  simp [ctxSet, ctxGet]

theorem ctxGet_ctxErase_ne (c : Ctx) (k k' : CtxKey) (h : k' ≠ k) :
    ctxGet (ctxErase c k) k' = ctxGet c k' := by
  induction c with
  | nil => rfl
  | cons e c ih =>
    by_cases he : e.1 = k
    · have he' : e.1 ≠ k' := fun hh => h (hh ▸ he ▸ rfl)
      rw [ctxErase, if_pos he, ih, ctxGet, if_neg he']
    · by_cases he' : e.1 = k'
      · rw [ctxErase, if_neg he, ctxGet, if_pos he', ctxGet, if_pos he']
      · rw [ctxErase, if_neg he, ctxGet, if_neg he', ih, ctxGet, if_neg he']

theorem ctxGet_ctxSet_ne (c : Ctx) (k k' : CtxKey) (v : CtxVal) (h : k' ≠ k) :
    ctxGet (ctxSet c k v) k' = ctxGet c k' := by
  rw [ctxSet, ctxGet, if_neg (fun hh => h hh.symm), ctxGet_ctxErase_ne c k k' h]

theorem ctxErase_of_get_none (c : Ctx) (k : CtxKey) (h : ctxGet c k = none) :
    ctxErase c k = c := by
  induction c with
  | nil => rfl
  | cons e c ih =>
    by_cases he : e.1 = k
    · simp [ctxGet, he] at h
    · simp [ctxGet, he] at h
      simp [ctxErase, he, ih h]

theorem length_ctxSet_of_none (c : Ctx) (k : CtxKey) (v : CtxVal)
    (h : ctxGet c k = none) : (ctxSet c k v).length = c.length + 1 := by
  simp [ctxSet, ctxErase_of_get_none c k h]

theorem ctxGet_eq_none (c : Ctx) (k : CtxKey) (h : ∀ e ∈ c, e.1 ≠ k) :
    ctxGet c k = none := by
  induction c with
  | nil => rfl
  | cons e c ih =>
    simp [ctxGet, h e (by simp)]
    exact ih (fun e' he' => h e' (by simp [he']))

theorem pathTip_append_one (l : PathR) (a : PathElem) : pathTip (l ++ [a]) = some a := by
  induction l with
  | nil => rfl
  | cons x l ih =>
    cases l with
    | nil => rfl
    | cons y l' => simpa [pathTip] using ih

theorem dropLast_append_one (l : PathR) (a : PathElem) : (l ++ [a]).dropLast = l := by
  simp

theorem eq_dropLast_append_getLast {α : Type} (l : List α) (a : α)
    (h : l.getLast? = some a) : l = l.dropLast ++ [a] := by
  induction l with
  | nil => simp [List.getLast?] at h
  | cons x l ih =>
    cases l with
    | nil =>
      simp [List.getLast?] at h
      simp [h]
    | cons y l' =>
      have h' : (y :: l').getLast? = some a := by
        simpa [List.getLast?_cons_cons] using h
      have := ih h'
      simpa [List.dropLast] using congrArg (x :: ·) this

/-! ### Chain lemmas for `_from_keys` resolution (Claim C2) -/

theorem chainOKb_cons_inv {w : World} {e : Nat} {t : String} {ts : List String}
    (h : chainOKb w e (t :: ts) = true) :
    ∃ p e2, lookupAttr w e t = some p ∧ p.target = some e2 ∧ chainOKb w e2 ts = true := by
  cases hl : lookupAttr w e t with
  | none =>
    simp only [chainOKb, hl] at h
    exact absurd h (by decide)
  | some p =>
    cases hp : p.target with
    | none =>
      simp only [chainOKb, hl, hp] at h
      exact absurd h (by decide)
    | some e2 =>
      simp only [chainOKb, hl, hp] at h
      exact ⟨p, e2, rfl, hp, h⟩

theorem chainOKb_cons {w : World} {e : Nat} {t : String} {ts : List String} {p : Prp} {e2 : Nat}
    (hl : lookupAttr w e t = some p) (hp : p.target = some e2) :
    chainOKb w e (t :: ts) = chainOKb w e2 ts := by
  simp only [chainOKb, hl, hp]

theorem chainTail_cons {w : World} {e : Nat} {t : String} {ts : List String} {p : Prp} {e2 : Nat}
    (hl : lookupAttr w e t = some p) (hp : p.target = some e2) :
    chainTail w e (t :: ts) = PathElem.prp p :: PathElem.ent e2 :: chainTail w e2 ts := by
  simp only [chainTail, hl, hp]

theorem chainKeyPath_cons {w : World} {e : Nat} {t : String} {ts : List String} {p : Prp}
    {e2 : Nat} (hl : lookupAttr w e t = some p) (hp : p.target = some e2) :
    chainKeyPath w e (t :: ts) = PathElem.ent e :: PathElem.prp p :: chainKeyPath w e2 ts := by
  simp only [chainKeyPath, hl, hp]

theorem chainEnd_cons {w : World} {e : Nat} {t : String} {ts : List String} {p : Prp} {e2 : Nat}
    (hl : lookupAttr w e t = some p) (hp : p.target = some e2) :
    chainEnd w e (t :: ts) = chainEnd w e2 ts := by
  simp only [chainEnd, hl, hp]

theorem chainOKb_take (w : World) :
    ∀ (ts : List String) (e k : Nat), chainOKb w e ts = true →
      chainOKb w e (ts.take k) = true := by
  intro ts
  induction ts with
  | nil => intro e k _; simp [List.take_nil]; rfl
  | cons t ts ih =>
    intro e k h
    obtain ⟨p, e2, hl, hp, h2⟩ := chainOKb_cons_inv h
    cases k with
    | zero => rfl
    | succ k' =>
      rw [List.take_succ_cons, chainOKb_cons hl hp]
      exact ih e2 k' h2

theorem chainKeyPath_length (w : World) :
    ∀ (ts : List String) (e : Nat), chainOKb w e ts = true →
      (chainKeyPath w e ts).length = 2 * ts.length := by
  intro ts
  induction ts with
  | nil => intro e _; rfl
  | cons t ts ih =>
    intro e h
    obtain ⟨p, e2, hl, hp, h2⟩ := chainOKb_cons_inv h
    rw [chainKeyPath_cons hl hp]
    simp [ih e2 h2]
    ring

theorem chainTail_eq_keyPath (w : World) :
    ∀ (ts : List String) (e : Nat), chainOKb w e ts = true →
      PathElem.ent e :: chainTail w e ts =
        chainKeyPath w e ts ++ [PathElem.ent (chainEnd w e ts)] := by
  intro ts
  induction ts with
  | nil => intro e _; rfl
  | cons t ts ih =>
    intro e h
    obtain ⟨p, e2, hl, hp, h2⟩ := chainOKb_cons_inv h
    rw [chainTail_cons hl hp, chainKeyPath_cons hl hp, chainEnd_cons hl hp]
    simpa using ih e2 h2

/-- `Load._generate_path` on a string token naming a relationship: the path
(ending in an entity) is extended by the property and its target entity. -/
theorem genPath_str (w : World) (pre : PathR) (e : Nat) (t : String) (p : Prp) (e2 : Nat)
    (ctx : Ctx) (hl : lookupAttr w e t = some p) (hp : p.target = some e2) :
    loadGeneratePath w (pre ++ [PathElem.ent e]) ctx (Tok.str t) =
      Except.ok (pre ++ [PathElem.ent e, PathElem.prp p, PathElem.ent e2], ctx) := by
  have htip : pathTipEntity (pre ++ [PathElem.ent e]) = some e := by
    simp [pathTipEntity, pathTip_append_one]
  have htip2 : pathTip ((pre ++ [PathElem.ent e]) ++ [PathElem.prp p]) =
      some (PathElem.prp p) := pathTip_append_one _ _
  simp only [loadGeneratePath, htip, hl, finishGeneratePath, pathHasEntity, htip2, hp,
    Option.isSome_some, if_true, pathEntityPath]
  simp

/-- The token replay of `_bind_loader` over a whole relationship chain. -/
theorem bindPathLoop_chain (w : World) :
    ∀ (ts : List String) (e : Nat) (pre : PathR) (ctx : Ctx), chainOKb w e ts = true →
      bindPathLoop w (pre ++ [PathElem.ent e]) ctx (ts.map Tok.str) =
        Except.ok (pre ++ [PathElem.ent e] ++ chainTail w e ts, ctx) := by
  intro ts
  induction ts with
  | nil => intro e pre ctx _; simp [bindPathLoop, chainTail]
  | cons t ts ih =>
    intro e pre ctx h
    obtain ⟨p, e2, hl, hp, h2⟩ := chainOKb_cons_inv h
    have hstep := genPath_str w pre e t p e2 ctx hl hp
    simp only [List.map_cons, bindPathLoop, hstep]
    have hpre : pre ++ [PathElem.ent e, PathElem.prp p, PathElem.ent e2] =
        (pre ++ [PathElem.ent e, PathElem.prp p]) ++ [PathElem.ent e2] := by simp
    rw [hpre, ih e2 (pre ++ [PathElem.ent e, PathElem.prp p]) ctx h2,
      chainTail_cons hl hp]
    simp

theorem take_append_one {α : Type} (done : List α) (t : α) (rest : List α) :
    (done ++ t :: rest).take (done.length + 1) = done ++ [t] := by
  induction done with
  | nil => simp
  | cons d done ih => simpa using ih

theorem ctxErase_subset (c : Ctx) (k : CtxKey) : ∀ e ∈ ctxErase c k, e ∈ c := by
  induction c with
  | nil => intro e he; exact absurd he (by simp [ctxErase])
  | cons x c ih =>
    intro e he
    by_cases hx : x.1 = k
    · rw [ctxErase, if_pos hx] at he
      exact List.mem_cons_of_mem x (ih e he)
    · rw [ctxErase, if_neg hx] at he
      rcases List.mem_cons.mp he with h1 | h2
      · exact h1 ▸ List.mem_cons_self x c
      · exact List.mem_cons_of_mem x (ih e h2)

theorem mem_ctxSet (c : Ctx) (k : CtxKey) (v : CtxVal) :
    ∀ e ∈ ctxSet c k v, e = (k, v) ∨ e ∈ c := by
  intro e he
  rcases List.mem_cons.mp he with h1 | h2
  · exact Or.inl h1
  · exact Or.inr (ctxErase_subset c k e h2)

/-- `_bind_loader` on one chained clone over a primary-load query: exactly
one `"loader"` entry is written, keyed at the parent of the resolved entity
path, holding the resolved path and the joined strategy. -/
theorem bindLoader_chain (w : World) (ent0 : MapperEntity) (rest : List MapperEntity)
    (pa : List (Nat × Adapter)) (p : List String) (hp : p ≠ [])
    (hchain : chainOKb w ent0.entity_zero p = true) (ctx : Ctx) (raiseerr : Bool) :
    bindLoader w ⟨ent0 :: rest, [], pa⟩ ctx
        ⟨p.map Tok.str, some joinedStrategy, []⟩ raiseerr =
      Except.ok (ctxSet ctx ("loader", chainKeyPath w ent0.entity_zero p)
        (CtxVal.loader
          (chainKeyPath w ent0.entity_zero p ++
            [PathElem.ent (chainEnd w ent0.entity_zero p)])
          (some joinedStrategy))) := by
  obtain ⟨t0, ts0, rfl⟩ : ∃ a l, p = a :: l := by
    cases p with
    | nil => exact absurd rfl hp
    | cons a l => exact ⟨a, l, rfl⟩
  have hloop := bindPathLoop_chain w (t0 :: ts0) ent0.entity_zero [] ctx hchain
  rw [List.nil_append] at hloop
  have hkey := chainTail_eq_keyPath w (t0 :: ts0) ent0.entity_zero hchain
  have hpath : [PathElem.ent ent0.entity_zero] ++ chainTail w ent0.entity_zero (t0 :: ts0) =
      chainKeyPath w ent0.entity_zero (t0 :: ts0) ++
        [PathElem.ent (chainEnd w ent0.entity_zero (t0 :: ts0))] := by
    rw [List.singleton_append]
    exact hkey
  rw [hpath] at hloop
  have hhe : pathHasEntity (chainKeyPath w ent0.entity_zero (t0 :: ts0) ++
      [PathElem.ent (chainEnd w ent0.entity_zero (t0 :: ts0))]) = true := by
    simp [pathHasEntity, pathTip_append_one]
  simp only [List.map_cons] at hloop
  simp only [bindLoader, List.map_cons, findEntityBasestring, hloop, hhe, if_true,
    setOptionsOnPath, List.foldl, pathParent, dropLast_append_one]

/-- Binding, in order, the chained clones for the remaining tokens `ts`
accumulates exactly the `c2Fold` context. -/
theorem processFold_chainClones (w : World) (ent0 : MapperEntity) (rest : List MapperEntity)
    (pa : List (Nat × Adapter)) (raiseerr : Bool) :
    ∀ (ts done : List String) (ctx : Ctx),
      chainOKb w ent0.entity_zero (done ++ ts) = true →
      unboundProcessFold w ⟨ent0 :: rest, [], pa⟩ ctx raiseerr
          (chainClones (done.map Tok.str) ts) =
        Except.ok (c2Fold w ent0.entity_zero done ts ctx) := by
  intro ts
  induction ts with
  | nil => intro done ctx _; rfl
  | cons t ts ih =>
    intro done ctx h
    have hok1 : chainOKb w ent0.entity_zero (done ++ [t]) = true := by
      have := chainOKb_take w (done ++ t :: ts) ent0.entity_zero (done.length + 1) h
      rwa [take_append_one] at this
    have hmap : done.map Tok.str ++ [Tok.str t] = (done ++ [t]).map Tok.str := by simp
    have hbl := bindLoader_chain w ent0 rest pa (done ++ [t]) (by simp) hok1 ctx raiseerr
    simp only [chainClones, unboundProcessFold, hmap, hbl]
    have hassoc : (done ++ [t]) ++ ts = done ++ t :: ts := by simp
    have := ih (done ++ [t])
      (ctxSet ctx ("loader", chainKeyPath w ent0.entity_zero (done ++ [t]))
        (CtxVal.loader
          (chainKeyPath w ent0.entity_zero (done ++ [t]) ++
            [PathElem.ent (chainEnd w ent0.entity_zero (done ++ [t]))])
          (some joinedStrategy)))
      (by rwa [hassoc])
    rw [this]
    rfl

/-- Later `c2Fold` writes only touch strictly longer key paths: shorter
keys read unchanged. -/
theorem c2Fold_preserves (w : World) (e0 : Nat) :
    ∀ (ts done : List String) (ctx : Ctx) (key : CtxKey),
      chainOKb w e0 (done ++ ts) = true →
      key.2.length < 2 * (done.length + 1) →
      ctxGet (c2Fold w e0 done ts ctx) key = ctxGet ctx key := by
  intro ts
  induction ts with
  | nil => intro done ctx key _ _; rfl
  | cons t ts ih =>
    intro done ctx key h hlt
    have hok1 : chainOKb w e0 (done ++ [t]) = true := by
      have := chainOKb_take w (done ++ t :: ts) e0 (done.length + 1) h
      rwa [take_append_one] at this
    have hklen : (chainKeyPath w e0 (done ++ [t])).length = 2 * (done.length + 1) := by
      rw [chainKeyPath_length w (done ++ [t]) e0 hok1]
      simp
    simp only [c2Fold]
    rw [ih (done ++ [t]) _ key (by simpa using h)
      (by simp only [List.length_append, List.length_cons, List.length_nil]; omega)]
    apply ctxGet_ctxSet_ne
    intro he
    rw [he] at hlt
    simp only at hlt
    omega

/-- Every consumed prefix of length at least `done.length + 1` reads back
its own `"loader"` entry from the accumulated context. -/
theorem c2Fold_get (w : World) (e0 : Nat) :
    ∀ (ts done : List String) (ctx : Ctx) (k : Nat),
      chainOKb w e0 (done ++ ts) = true →
      done.length + 1 ≤ k → k ≤ done.length + ts.length →
      ctxGet (c2Fold w e0 done ts ctx)
          ("loader", chainKeyPath w e0 ((done ++ ts).take k)) =
        some (CtxVal.loader
          (chainKeyPath w e0 ((done ++ ts).take k) ++
            [PathElem.ent (chainEnd w e0 ((done ++ ts).take k))])
          (some joinedStrategy)) := by
  intro ts
  induction ts with
  | nil =>
    intro done ctx k _ h1 h2
    simp only [List.length_nil] at h2
    omega
  | cons t ts ih =>
    intro done ctx k h h1 h2
    have hok1 : chainOKb w e0 (done ++ [t]) = true := by
      have := chainOKb_take w (done ++ t :: ts) e0 (done.length + 1) h
      rwa [take_append_one] at this
    have hklen : (chainKeyPath w e0 (done ++ [t])).length = 2 * (done.length + 1) := by
      rw [chainKeyPath_length w (done ++ [t]) e0 hok1]
      simp
    have hassoc : (done ++ [t]) ++ ts = done ++ t :: ts := by simp
    simp only [c2Fold]
    by_cases hk : k = done.length + 1
    · subst hk
      rw [take_append_one]
      rw [c2Fold_preserves w e0 ts (done ++ [t]) _ _ (by rwa [hassoc])
        (by simp only [hklen, List.length_append, List.length_cons, List.length_nil]; omega)]
      exact ctxGet_ctxSet_self _ _ _
    · have h1' : (done ++ [t]).length + 1 ≤ k := by
        simp only [List.length_append, List.length_cons, List.length_nil]
        omega
      have h2' : k ≤ (done ++ [t]).length + ts.length := by
        simp only [List.length_append, List.length_cons, List.length_nil] at h2 ⊢
        omega
      have := ih (done ++ [t])
        (ctxSet ctx ("loader", chainKeyPath w e0 (done ++ [t]))
          (CtxVal.loader
            (chainKeyPath w e0 (done ++ [t]) ++
              [PathElem.ent (chainEnd w e0 (done ++ [t]))])
            (some joinedStrategy)))
        k (by rwa [hassoc]) h1' h2'
      rwa [hassoc] at this

/-- The accumulated context has exactly one entry per remaining token. -/
theorem c2Fold_length (w : World) (e0 : Nat) :
    ∀ (ts done : List String) (ctx : Ctx),
      chainOKb w e0 (done ++ ts) = true →
      (∀ en ∈ ctx, en.1.2.length < 2 * (done.length + 1)) →
      (c2Fold w e0 done ts ctx).length = ctx.length + ts.length := by
  intro ts
  induction ts with
  | nil => intro done ctx _ _; rfl
  | cons t ts ih =>
    intro done ctx h hinv
    have hok1 : chainOKb w e0 (done ++ [t]) = true := by
      have := chainOKb_take w (done ++ t :: ts) e0 (done.length + 1) h
      rwa [take_append_one] at this
    have hklen : (chainKeyPath w e0 (done ++ [t])).length = 2 * (done.length + 1) := by
      rw [chainKeyPath_length w (done ++ [t]) e0 hok1]
      simp
    have hassoc : (done ++ [t]) ++ ts = done ++ t :: ts := by simp
    have hfresh : ctxGet ctx ("loader", chainKeyPath w e0 (done ++ [t])) = none := by
      apply ctxGet_eq_none
      intro en hen he
      have hlt := hinv en hen
      rw [he] at hlt
      simp only at hlt
      omega
    have hinv2 : ∀ en ∈ ctxSet ctx ("loader", chainKeyPath w e0 (done ++ [t]))
        (CtxVal.loader
          (chainKeyPath w e0 (done ++ [t]) ++
            [PathElem.ent (chainEnd w e0 (done ++ [t]))])
          (some joinedStrategy)),
        en.1.2.length < 2 * ((done ++ [t]).length + 1) := by
      intro en hen
      rcases mem_ctxSet _ _ _ en hen with h1 | h2
      · rw [h1]
        simp only [List.length_append, List.length_cons, List.length_nil, hklen]
        omega
      · have := hinv en h2
        simp only [List.length_append, List.length_cons, List.length_nil]
        omega
    simp only [c2Fold]
    rw [ih (done ++ [t]) _ (by rwa [hassoc]) hinv2,
      length_ctxSet_of_none _ _ _ hfresh]
    simp only [List.length_cons]
    omega

/-! ### `_from_keys` characterization (Claim C2) -/

theorem fromKeysStep_path (ch : Bool) :
    ∀ (ts : List String) (opt : UnboundOpt) (bind : List UnboundOpt),
      ((ts.foldl (fromKeysStep ch none) (opt, bind)).1).path = opt.path ++ ts.map Tok.str := by
  intro ts
  induction ts with
  | nil => intro opt bind; simp
  | cons t ts ih =>
    intro opt bind
    rw [List.foldl_cons]
    cases ch with
    | false =>
      rw [show fromKeysStep false none (opt, bind) t = defaultU opt bind (Tok.str t) from rfl]
      rw [ih]
      simp [defaultU]
    | true =>
      rw [show fromKeysStep true none (opt, bind) t =
        joinedU opt bind (Tok.str t) none from rfl]
      rw [ih]
      simp [joinedU]

theorem fromKeysStep_bind_chained :
    ∀ (ts : List String) (opt : UnboundOpt) (bind : List UnboundOpt),
      (ts.foldl (fromKeysStep true none) (opt, bind)).2 = bind ++ chainClones opt.path ts := by
  intro ts
  induction ts with
  | nil => intro opt bind; simp [chainClones]
  | cons t ts ih =>
    intro opt bind
    rw [List.foldl_cons,
      show fromKeysStep true none (opt, bind) t = joinedU opt bind (Tok.str t) none from rfl]
    rw [ih]
    simp [joinedU, chainClones]

theorem fromKeysStep_bind_plain :
    ∀ (ts : List String) (opt : UnboundOpt) (bind : List UnboundOpt),
      (ts.foldl (fromKeysStep false none) (opt, bind)).2 = bind := by
  intro ts
  induction ts with
  | nil => intro opt bind; rfl
  | cons t ts ih =>
    intro opt bind
    rw [List.foldl_cons,
      show fromKeysStep false none (opt, bind) t = defaultU opt bind (Tok.str t) from rfl]
    exact ih _ _

theorem chainClones_append_one :
    ∀ (ts : List String) (base : List Tok) (t : String),
      chainClones base (ts ++ [t]) =
        chainClones base ts ++
          [⟨base ++ (ts ++ [t]).map Tok.str, some joinedStrategy, []⟩] := by
  intro ts
  induction ts with
  | nil => intro base t; simp [chainClones]
  | cons u ts ih =>
    intro base t
    rw [List.cons_append]
    simp only [chainClones]
    rw [ih (base ++ [Tok.str u]) t]
    simp

/-- `_from_keys(joined, keys, chained=True, kw={})`: the final option holds
the whole token path and `_to_bind` holds one clone per non-empty token
prefix, in order. -/
theorem fromKeysJoined_chained (keys : List String) (hne : splitDots keys ≠ []) :
    fromKeysJoined keys true none =
      Except.ok (⟨(splitDots keys).map Tok.str, some joinedStrategy, []⟩,
        chainClones [] (splitDots keys)) := by
  obtain ⟨last, hlast⟩ : ∃ a, (splitDots keys).getLast? = some a := by
    cases hl : (splitDots keys).getLast? with
    | none => exact absurd (List.getLast?_eq_none_iff.mp hl) hne
    | some a => exact ⟨a, rfl⟩
  have hdecomp := eq_dropLast_append_getLast (splitDots keys) last hlast
  have hpath := fromKeysStep_path true (splitDots keys).dropLast emptyUnbound []
  have hbind := fromKeysStep_bind_chained (splitDots keys).dropLast emptyUnbound []
  simp only [fromKeysJoined, hlast, joinedU]
  rw [hpath, hbind]
  conv_rhs => rw [hdecomp]
  rw [chainClones_append_one]
  simp [emptyUnbound]

/-- `_from_keys(joined, keys, chained=False, kw={})`: only the final clone
enters `_to_bind`, carrying the full token path. -/
theorem fromKeysJoined_plain (keys : List String) (hne : splitDots keys ≠ []) :
    fromKeysJoined keys false none =
      Except.ok (⟨(splitDots keys).map Tok.str, some joinedStrategy, []⟩,
        [⟨(splitDots keys).map Tok.str, some joinedStrategy, []⟩]) := by
  obtain ⟨last, hlast⟩ : ∃ a, (splitDots keys).getLast? = some a := by
    cases hl : (splitDots keys).getLast? with
    | none => exact absurd (List.getLast?_eq_none_iff.mp hl) hne
    | some a => exact ⟨a, rfl⟩
  have hdecomp := eq_dropLast_append_getLast (splitDots keys) last hlast
  have hpath := fromKeysStep_path false (splitDots keys).dropLast emptyUnbound []
  have hbind := fromKeysStep_bind_plain (splitDots keys).dropLast emptyUnbound []
  simp only [fromKeysJoined, hlast, joinedU]
  rw [hpath, hbind]
  conv_rhs => rw [hdecomp]
  simp [emptyUnbound]

/-! ### Claim C1 -/

/-- Claim C1 (code bug): resolving any unbound option against a query whose
current path is non-empty never reaches the chopping logic — the
`self._chop_path(start_path, current_path)` call at line 172 raises
TypeError because `_chop_path` (line 209) lacks a `self` parameter, so no
matching prefix is ever chopped and no silent-miss sentinel is ever
produced, in both raise and conditional modes. -/
theorem c1_chop_path_type_error :
    (fromKeysJoined ["a"] false none).isOk = true ∧
    unboundProcess c1World c1Query c1Bind true = Except.error OErr.typeError ∧
    unboundProcess c1World c1Query c1Bind false = Except.error OErr.typeError :=
  ⟨rfl, rfl, rfl⟩

/-! ### Claim C2 -/

/-- Claim C2: for an `N`-segment dotted relationship path resolved against
a matching query (non-empty entity list, empty current path),
`_from_keys(joined, …, chained=True)` writes exactly `N` `"loader"` (path →
strategy-carrying option) directives, one per token prefix, keyed at paths
of strictly increasing lengths `2, 4, …, 2N`, each holding the same joined
strategy; with `chained=False` exactly one directive is written, keyed at
the full path. -/
theorem c2_from_keys_directives (w : World) (q : Query) (keys : List String)
    (ent0 : MapperEntity) (rest : List MapperEntity) (raiseerr : Bool)
    (hq : q.current_path = []) (hents : q.mapper_entities = ent0 :: rest)
    (hne : splitDots keys ≠ [])
    (hchain : chainOKb w ent0.entity_zero (splitDots keys) = true) :
    (∃ opt bind ctx,
      fromKeysJoined keys true none = Except.ok (opt, bind) ∧
      unboundProcess w q bind raiseerr = Except.ok ctx ∧
      ctx.length = (splitDots keys).length ∧
      ∀ k, 1 ≤ k → k ≤ (splitDots keys).length →
        ctxGet ctx ("loader", chainKeyPath w ent0.entity_zero ((splitDots keys).take k)) =
          some (CtxVal.loader
            (chainKeyPath w ent0.entity_zero ((splitDots keys).take k) ++
              [PathElem.ent (chainEnd w ent0.entity_zero ((splitDots keys).take k))])
            (some joinedStrategy)) ∧
        (chainKeyPath w ent0.entity_zero ((splitDots keys).take k)).length = 2 * k) ∧
    (∃ opt1 ctx1,
      fromKeysJoined keys false none = Except.ok (opt1, [opt1]) ∧
      unboundProcess w q [opt1] raiseerr = Except.ok ctx1 ∧
      ctx1.length = 1 ∧
      ctxGet ctx1 ("loader", chainKeyPath w ent0.entity_zero (splitDots keys)) =
        some (CtxVal.loader
          (chainKeyPath w ent0.entity_zero (splitDots keys) ++
            [PathElem.ent (chainEnd w ent0.entity_zero (splitDots keys))])
          (some joinedStrategy))) := by
  obtain ⟨qe, qc, qa⟩ := q
  simp only at hq hents
  subst hq
  subst hents
  constructor
  · refine ⟨⟨(splitDots keys).map Tok.str, some joinedStrategy, []⟩,
      chainClones [] (splitDots keys),
      c2Fold w ent0.entity_zero [] (splitDots keys) [],
      fromKeysJoined_chained keys hne, ?_, ?_, ?_⟩
    · have := processFold_chainClones w ent0 rest qa raiseerr (splitDots keys) [] []
        (by simpa using hchain)
      simpa [unboundProcess, List.map_nil] using this
    · have := c2Fold_length w ent0.entity_zero (splitDots keys) [] []
        (by simpa using hchain) (fun en hen => absurd hen (List.not_mem_nil en))
      simpa using this
    · intro k h1 h2
      constructor
      · have := c2Fold_get w ent0.entity_zero (splitDots keys) [] [] k
          (by simpa using hchain) (by simpa using h1) (by simpa using h2)
        simpa using this
      · have hok := chainOKb_take w (splitDots keys) ent0.entity_zero k hchain
        rw [chainKeyPath_length w _ _ hok, List.length_take]
        omega
  · have hbl := bindLoader_chain w ent0 rest qa (splitDots keys) hne hchain [] raiseerr
    refine ⟨⟨(splitDots keys).map Tok.str, some joinedStrategy, []⟩,
      ctxSet [] ("loader", chainKeyPath w ent0.entity_zero (splitDots keys))
        (CtxVal.loader
          (chainKeyPath w ent0.entity_zero (splitDots keys) ++
            [PathElem.ent (chainEnd w ent0.entity_zero (splitDots keys))])
          (some joinedStrategy)),
      fromKeysJoined_plain keys hne, ?_, ?_, ?_⟩
    · simp [unboundProcess, unboundProcessFold, hbl]
    · simp [ctxSet, ctxErase]
    · exact ctxGet_ctxSet_self _ _ _

/-- Witness for C2 at the two-segment dotted path `"a.b"` over `c2World`. -/
theorem c2_from_keys_directives_witness :
    (∃ opt bind ctx,
      fromKeysJoined ["a.b"] true none = Except.ok (opt, bind) ∧
      unboundProcess c2World c2Query bind true = Except.ok ctx ∧
      ctx.length = (splitDots ["a.b"]).length ∧
      ∀ k, 1 ≤ k → k ≤ (splitDots ["a.b"]).length →
        ctxGet ctx ("loader", chainKeyPath c2World 0 ((splitDots ["a.b"]).take k)) =
          some (CtxVal.loader
            (chainKeyPath c2World 0 ((splitDots ["a.b"]).take k) ++
              [PathElem.ent (chainEnd c2World 0 ((splitDots ["a.b"]).take k))])
            (some joinedStrategy)) ∧
        (chainKeyPath c2World 0 ((splitDots ["a.b"]).take k)).length = 2 * k) ∧
    (∃ opt1 ctx1,
      fromKeysJoined ["a.b"] false none = Except.ok (opt1, [opt1]) ∧
      unboundProcess c2World c2Query [opt1] true = Except.ok ctx1 ∧
      ctx1.length = 1 ∧
      ctxGet ctx1 ("loader", chainKeyPath c2World 0 (splitDots ["a.b"])) =
        some (CtxVal.loader
          (chainKeyPath c2World 0 (splitDots ["a.b"]) ++
            [PathElem.ent (chainEnd c2World 0 (splitDots ["a.b"]))])
          (some joinedStrategy))) :=
  c2_from_keys_directives c2World c2Query ["a.b"] ⟨0, [0]⟩ [] true rfl rfl
    (by decide) (by decide)

/-! ### Claim C3 -/

/-- Claim C3 (code bug): for an unbound option whose entity lookup fails,
conditional mode (`process_query_conditionally`, raiseerr = False) raises
the "cannot find property" ArgumentError instead of silently no-opping, and
raise mode (`process_query`) raises AttributeError instead of the
ArgumentError — the `conditional` flag of
`_UnboundLoad._find_entity_prop_comparator` is tested in the inverted sense
of the `raiseerr` its caller passes, and the `None` entity it returns in
raise mode hits `entity.entity_zero` unguarded. -/
theorem c3_conditional_mode_raises :
    unboundProcess c3World c3Query c3Bind false =
      Except.error (OErr.argumentError ArgKind.cantFindProperty) ∧
    unboundProcess c3World c3Query c3Bind true = Except.error OErr.attributeError :=
  ⟨rfl, rfl⟩

/-! ### Claim C4 -/

/-- Claim C4 counterexample: a key tuple combining the wildcard `"*"` with
another token is accepted without error when the wildcard is not the first
element — `key[0]` is the only token ever tested — and the option even keeps
`propagate_to_loaders = True`. -/
theorem c4_wildcard_position_counterexample :
    eagerLazyOptionInit [Tok.str "a", Tok.str "*"] LazyVal.ltrue false true =
      Except.ok { key := [Tok.str "a", Tok.str "*"], lazy := LazyVal.ltrue, chained := false,
                  propagate_to_loaders := true, strategy_cls := StrategyCls.lazyLoader } :=
  rfl

/-- Claim C4 as amended: only a key tuple whose *first* element is the
wildcard `"*"` raises the ambiguous-wildcard ArgumentError when other
tokens are present; and the lone wildcard is rewritten to
`("relationship:*",)` with `propagate_to_loaders` forced to `False`. -/
theorem c4_wildcard_first_amended (rest : List Tok) (lazy : LazyVal) (ch pr : Bool)
    (hne : rest ≠ []) :
    eagerLazyOptionInit (Tok.str "*" :: rest) lazy ch pr =
      Except.error (OErr.argumentError ArgKind.wildcardAlone) ∧
    eagerLazyOptionInit [Tok.str "*"] lazy ch pr =
      Except.ok { key := [Tok.str "relationship:*"], lazy := lazy, chained := ch,
                  propagate_to_loaders := false, strategy_cls := strategyLookup lazy } := by
  constructor
  · simp [eagerLazyOptionInit, hne]
  · simp [eagerLazyOptionInit]

/-- Witness for the amended C4 at a concrete two-token key. -/
theorem c4_wildcard_first_amended_witness :
    eagerLazyOptionInit [Tok.str "*", Tok.str "b"] LazyVal.ltrue false true =
      Except.error (OErr.argumentError ArgKind.wildcardAlone) ∧
    eagerLazyOptionInit [Tok.str "*"] LazyVal.ltrue false true =
      Except.ok { key := [Tok.str "relationship:*"], lazy := LazyVal.ltrue, chained := false,
                  propagate_to_loaders := false, strategy_cls := StrategyCls.lazyLoader } :=
  c4_wildcard_first_amended [Tok.str "b"] LazyVal.ltrue false true (by simp)

/-! ### Claim C5 -/

theorem dGet_dSet_self (d : AList) (k : String) (v : Nat) : dGet (dSet d k v) k = some v := by
  simp [dSet, dGet]

theorem dGet_dErase_ne (d : AList) (k k' : String) (h : k' ≠ k) :
    dGet (dErase d k) k' = dGet d k' := by
  induction d with
  | nil => rfl
  | cons kv d ih =>
    by_cases he : kv.1 = k
    · have he' : kv.1 ≠ k' := fun hh => h (hh ▸ he ▸ rfl)
      rw [dErase, if_pos he, ih, dGet, if_neg he']
    · by_cases he' : kv.1 = k'
      · rw [dErase, if_neg he, dGet, if_pos he', dGet, if_pos he']
      · rw [dErase, if_neg he, dGet, if_neg he', ih, dGet, if_neg he']

theorem dGet_dSet_ne (d : AList) (k k' : String) (v : Nat) (h : k' ≠ k) :
    dGet (dSet d k v) k' = dGet d k' := by
  rw [dSet, dGet, if_neg (fun hh => h hh.symm), dGet_dErase_ne d k k' h]

theorem dGet_eq_none_forall (d : AList) (k : String) (h : ∀ kv ∈ d, kv.1 ≠ k) :
    dGet d k = none := by
  induction d with
  | nil => rfl
  | cons kv d ih =>
    rw [dGet, if_neg (h kv (by simp))]
    exact ih (fun kv' hm => h kv' (by simp [hm]))

/-- `d.update(p)` at the lookup level: keys of `p` (assumed distinct, as in
any Python dict) override keys of `d`. -/
theorem dGet_dUpdate (d p : AList) (k : String) (h : (p.map Prod.fst).Nodup) :
    dGet (dUpdate d p) k = (dGet p k).or (dGet d k) := by
  induction p generalizing d with
  | nil => simp [dUpdate, dGet, Option.or]
  | cons kv rest ih =>
    rw [List.map_cons] at h
    have h' := List.nodup_cons.mp h
    have step : dUpdate d (kv :: rest) = dUpdate (dSet d kv.1 kv.2) rest := rfl
    rw [step, ih (dSet d kv.1 kv.2) h'.2]
    by_cases hk : k = kv.1
    · rw [hk]
      have hnone : dGet rest kv.1 = none :=
        dGet_eq_none_forall rest kv.1
          (fun kv' hm he => h'.1 (he ▸ List.mem_map_of_mem Prod.fst hm))
      rw [hnone, dGet, if_pos rfl, dGet_dSet_self]
      rfl
    · rw [dGet_dSet_ne d kv.1 k kv.2 hk, dGet, if_neg (fun hh => hk hh.symm)]

/-- Claim C5 counterexample: on an `Update` builder, `values()` with a list
after a prior single-row call raises the "does not support multiple
parameter sets" InvalidRequestError of `_process_colparams`, not the
"mixing" ArgumentError the claim names. -/
theorem c5_update_list_counterexample :
    valuesM (exOk (valuesM (mkUpdate ["a", "b"]) [PArg.argDict [("a", 1)]] []) (mkUpdate []))
        [PArg.argList [PElem.pd [("b", 2)]]] [] = Except.error DMLErr.multiNotSupported ∧
    DMLErr.multiNotSupported ≠ DMLErr.mixingError :=
  ⟨rfl, by decide⟩

/-- Claim C5 as amended, on builders that support multiple parameter sets
(`Insert`): two single-dict `values()` calls merge key-wise with the later
call overriding; a list after a single-row call raises the mixing error; two
list calls concatenate (on `Update` a list instead raises the
multiple-parameter-sets-unsupported error, per the counterexample). -/
theorem c5_values_amended (cols : List String) (d1 d2 : AList) (l1 l2 : List PElem)
    (h1 : l1 ≠ []) (h2 : l2 ≠ []) (hnd : (d2.map Prod.fst).Nodup) :
    (∃ s1 s2,
      valuesM (mkInsert cols) [PArg.argDict d1] [] = Except.ok s1 ∧
      valuesM s1 [PArg.argDict d2] [] = Except.ok s2 ∧
      s2.parameters = some (ProcParams.single (dUpdate d1 d2)) ∧
      (∀ k, dGet (dUpdate d1 d2) k = (dGet d2 k).or (dGet d1 k)) ∧
      valuesM s1 [PArg.argList l1] [] = Except.error DMLErr.mixingError) ∧
    (∃ t1 t2,
      valuesM (mkInsert cols) [PArg.argList l1] [] = Except.ok t1 ∧
      valuesM t1 [PArg.argList l2] [] = Except.ok t2 ∧
      t2.parameters =
        some (ProcParams.multi (l1.map (processSingle cols) ++ l2.map (processSingle cols)))) := by
  obtain ⟨e1, es1, rfl⟩ : ∃ a l, l1 = a :: l := by
    cases l1 with
    | nil => exact absurd rfl h1
    | cons a l => exact ⟨a, l, rfl⟩
  obtain ⟨e2, es2, rfl⟩ : ∃ a l, l2 = a :: l := by
    cases l2 with
    | nil => exact absurd rfl h2
    | cons a l => exact ⟨a, l, rfl⟩
  constructor
  · exact ⟨_, _, rfl, rfl, rfl, fun k => dGet_dUpdate d1 d2 k hnd, rfl⟩
  · exact ⟨_, _, rfl, rfl, rfl⟩

/-- Witness for the amended C5 at concrete dictionaries and lists. -/
theorem c5_values_amended_witness :
    (∃ s1 s2,
      valuesM (mkInsert ["a", "b"]) [PArg.argDict [("a", 1)]] [] = Except.ok s1 ∧
      valuesM s1 [PArg.argDict [("b", 2), ("a", 3)]] [] = Except.ok s2 ∧
      s2.parameters = some (ProcParams.single (dUpdate [("a", 1)] [("b", 2), ("a", 3)])) ∧
      (∀ k, dGet (dUpdate [("a", 1)] [("b", 2), ("a", 3)]) k =
        (dGet [("b", 2), ("a", 3)] k).or (dGet [("a", 1)] k)) ∧
      valuesM s1 [PArg.argList [PElem.pd [("x", 1)]]] [] = Except.error DMLErr.mixingError) ∧
    (∃ t1 t2,
      valuesM (mkInsert ["a", "b"]) [PArg.argList [PElem.pd [("x", 1)]]] [] = Except.ok t1 ∧
      valuesM t1 [PArg.argList [PElem.pd [("y", 2)]]] [] = Except.ok t2 ∧
      t2.parameters = some (ProcParams.multi
        ([PElem.pd [("x", 1)]].map (processSingle ["a", "b"]) ++
         [PElem.pd [("y", 2)]].map (processSingle ["a", "b"])))) :=
  c5_values_amended ["a", "b"] [("a", 1)] [("b", 2), ("a", 3)]
    [PElem.pd [("x", 1)]] [PElem.pd [("y", 2)]] (by simp) (by simp) (by decide)

/-! ### Claim C6 -/

/-- Claim C6: `returning()` and `return_defaults()` store their column lists
under independent flags — applying them in either order yields the same
statement, with `_returning` holding exactly the RETURNING list and
`_return_defaults` holding the other — and `return_defaults()` with no
arguments records the boolean-`True` sentinel, not an empty list. -/
theorem c6_returning_return_defaults_independent (s : Stmt) (r d : List Nat) :
    returnDefaultsM (returningM s r) d = returningM (returnDefaultsM s d) r ∧
    (returnDefaultsM (returningM s r) d).returning_ = some r ∧
    (returnDefaultsM (returningM s r) d).returnDefaults =
      (if d = [] then RetDef.boolv true else RetDef.colsv d) ∧
    (returnDefaultsM s []).returnDefaults = RetDef.boolv true := by
  refine ⟨rfl, rfl, rfl, by simp [returnDefaultsM]⟩

/-! ### Claim C8 -/

/-- Claim C8: for every bound `Load`, `joined(attr, innerjoin=b)` with `b`
not `None` sets the eager-join strategy and records the `eager_join_type`
directive at the parent path when the resulting path tip is an entity, and
at the path itself otherwise. -/
theorem c8_joined_eager_join_type (w : World) (l : FullLoad) (attr : Tok) (b : Bool)
    (l2 : FullLoad) (h : loadJoined w l attr (some b) = Except.ok l2) :
    l2.strategy = some joinedStrategy ∧
    ctxGet l2.context
      ("eager_join_type", if pathHasEntity l2.path then pathParent l2.path else l2.path) =
      some (CtxVal.optVal (StratVal.bv b)) := by
  cases hg : loadGeneratePath w l.path l.context attr with
  | error e => simp [loadJoined, loadSetStrategy, hg] at h
  | ok pc =>
    obtain ⟨path, ctx⟩ := pc
    simp [loadJoined, loadSetStrategy, hg] at h
    subst h
    refine ⟨rfl, ?_⟩
    simp only [loadSetOptions, setOptionsOnPath, List.foldl]
    exact ctxGet_ctxSet_self _ _ _

/-- Witness for C8: `Load(0).joined("r", innerjoin=True)` on `c8World`. -/
theorem c8_joined_eager_join_type_witness :
    loadJoined c8World (loadInit 0) (Tok.str "r") (some true) =
      Except.ok (exOk (loadJoined c8World (loadInit 0) (Tok.str "r") (some true)) (loadInit 0)) ∧
    (exOk (loadJoined c8World (loadInit 0) (Tok.str "r") (some true)) (loadInit 0)).strategy =
      some joinedStrategy ∧
    ctxGet (exOk (loadJoined c8World (loadInit 0) (Tok.str "r") (some true)) (loadInit 0)).context
      ("eager_join_type",
        if pathHasEntity
            (exOk (loadJoined c8World (loadInit 0) (Tok.str "r") (some true)) (loadInit 0)).path
        then pathParent
          (exOk (loadJoined c8World (loadInit 0) (Tok.str "r") (some true)) (loadInit 0)).path
        else (exOk (loadJoined c8World (loadInit 0) (Tok.str "r") (some true)) (loadInit 0)).path) =
      some (CtxVal.optVal (StratVal.bv true)) :=
  ⟨rfl,
   (c8_joined_eager_join_type c8World (loadInit 0) (Tok.str "r") true _ rfl).1,
   (c8_joined_eager_join_type c8World (loadInit 0) (Tok.str "r") true _ rfl).2⟩

/-! ### Claim C7 -/

/-- The chained `setdefault` loop of
`LoadEagerFromAliasOption.process_query_property` succeeds on well-formed
paths and only ever touches `"user_defined_eager_row_processor"` keys. -/
theorem eagerChainLoop_preserves (q : Query) (l : List PathR) (attrs : Ctx)
    (h : ∀ pa ∈ l, ∃ mm prr, lastTwo pa = some (mm, prr) ∧ prr.target.isSome) :
    ∃ attrs2, eagerChainLoop q attrs l = Except.ok attrs2 ∧
      ∀ key : CtxKey, key.1 ≠ "user_defined_eager_row_processor" →
        ctxGet attrs2 key = ctxGet attrs key := by
  induction l generalizing attrs with
  | nil => exact ⟨attrs, rfl, fun _ _ => rfl⟩
  | cons pa rest ih =>
    obtain ⟨mm, prr, hlt, hts⟩ := h pa (by simp)
    obtain ⟨tm, htm⟩ := Option.isSome_iff_exists.mp hts
    have step : eagerChainLoop q attrs (pa :: rest) =
        eagerChainLoop q (ctxSetdefault attrs ("user_defined_eager_row_processor", pa)
          (CtxVal.rowProc (adapterLookup q.polymorphic_adapters tm))) rest := by
      simp [eagerChainLoop, hlt, htm]
    obtain ⟨attrs2, hok, hpres⟩ := ih _ (fun pa' hm => h pa' (by simp [hm]))
    refine ⟨attrs2, by rw [step]; exact hok, fun key hk => ?_⟩
    rw [hpres key hk]
    have hne : key ≠ ("user_defined_eager_row_processor", pa) := by
      intro he
      exact hk (by rw [he])
    simp only [ctxSetdefault]
    by_cases hs : (ctxGet attrs ("user_defined_eager_row_processor", pa)).isSome = true
    · rw [if_pos hs]
    · rw [if_neg hs]
      exact ctxGet_ctxSet_ne _ _ _ _ hne

/-- Claim C7: `contains_eager` processed without an explicit alias, when a
`"path_with_polymorphic"` entry was already recorded at the option's final
path, records a `"user_defined_eager_row_processor"` adapter constructed
from that polymorphic entity — independent of whatever
`query._polymorphic_adapters` holds. -/
theorem c7_contains_eager_poly_adapter (q : Query) (attrs : Ctx) (paths : List PathR)
    (lastP : PathR) (m : Nat) (pr : Prp) (tm e : Nat)
    (hlast : paths.getLast? = some lastP)
    (hwf : ∀ pa ∈ paths, ∃ mm prr, lastTwo pa = some (mm, prr) ∧ prr.target.isSome)
    (hlt : lastTwo lastP = some (m, pr)) (htm : pr.target = some tm)
    (hpoly : ctxGet attrs ("path_with_polymorphic", lastP) = some (CtxVal.pathWithPoly e)) :
    ∃ attrs2, eagerFromAliasProcess q attrs none true paths = Except.ok attrs2 ∧
      ctxGet attrs2 ("user_defined_eager_row_processor", lastP) =
        some (CtxVal.rowProc (some (Adapter.orm e tm))) := by
  obtain ⟨a2, hloop, hpres⟩ := eagerChainLoop_preserves q paths.dropLast attrs
    (fun pa hm => hwf pa (List.dropLast_subset paths hm))
  have hname : ("path_with_polymorphic" : String) ≠ "user_defined_eager_row_processor" := by
    decide
  have hpoly2 : ctxGet a2 ("path_with_polymorphic", lastP) =
      some (CtxVal.pathWithPoly e) := by
    rw [hpres ("path_with_polymorphic", lastP) hname]
    exact hpoly
  have hres : eagerFromAliasProcess q attrs none true paths =
      Except.ok (ctxSet a2 ("user_defined_eager_row_processor", lastP)
        (CtxVal.rowProc (some (Adapter.orm e tm)))) := by
    simp [eagerFromAliasProcess, hloop, hlast, hlt, hpoly2, htm]
  exact ⟨_, hres, ctxGet_ctxSet_self _ _ _⟩

/-- Witness for C7: with a polymorphic entry for entity 42 recorded at the
final path and an unrelated adapter in the polymorphic-adapter table, the
recorded row processor is the ORMAdapter over entity 42. -/
theorem c7_contains_eager_poly_adapter_witness :
    ∃ attrs2, eagerFromAliasProcess c7Query c7Attrs none true [c7Path] = Except.ok attrs2 ∧
      ctxGet attrs2 ("user_defined_eager_row_processor", c7Path) =
        some (CtxVal.rowProc (some (Adapter.orm 42 1))) :=
  c7_contains_eager_poly_adapter c7Query c7Attrs [c7Path] c7Path 0 ⟨"r", some 1⟩ 1 42
    rfl
    (by
      intro pa hm
      simp at hm
      subst hm
      exact ⟨0, ⟨"r", some 1⟩, rfl, rfl⟩)
    rfl rfl rfl

/-! ### Claim C9 -/

/-- Claim C9: `_find_entity_basestring` returns the query's first mapper
entity unconditionally — the token is never consulted — and the
"only expression-based entities" ArgumentError arises only with zero mapper
entities in raise mode, conditional mode returning the `None` sentinel. -/
theorem c9_find_entity_basestring_first (q : Query) (t t' : String) (r : Bool) :
    findEntityBasestring q t r = findEntityBasestring q t' r ∧
    (∀ e rest, q.mapper_entities = e :: rest →
      findEntityBasestring q t r = Except.ok (some e)) ∧
    (q.mapper_entities = [] → findEntityBasestring q t r =
      if r then Except.error (OErr.argumentError ArgKind.onlyExpressionEntities)
      else Except.ok none) := by
  refine ⟨?_, ?_, ?_⟩
  · cases hq : q.mapper_entities <;> simp [findEntityBasestring, hq]
  · intro e rest hq
    simp [findEntityBasestring, hq]
  · intro hq
    simp [findEntityBasestring, hq]

/-- Witness for C9 at a one-entity query and at an entity-free query. -/
theorem c9_find_entity_basestring_first_witness :
    findEntityBasestring ⟨[⟨5, [5]⟩], [], []⟩ "x" true =
      findEntityBasestring ⟨[⟨5, [5]⟩], [], []⟩ "y" true ∧
    findEntityBasestring ⟨[⟨5, [5]⟩], [], []⟩ "x" true = Except.ok (some ⟨5, [5]⟩) ∧
    findEntityBasestring ⟨[], [], []⟩ "x" false = Except.ok none :=
  ⟨(c9_find_entity_basestring_first ⟨[⟨5, [5]⟩], [], []⟩ "x" "y" true).1,
   (c9_find_entity_basestring_first ⟨[⟨5, [5]⟩], [], []⟩ "x" "y" true).2.1 ⟨5, [5]⟩ [] rfl,
   by simpa using (c9_find_entity_basestring_first ⟨[], [], []⟩ "x" "y" false).2.2 rfl⟩

/-! ### Claim C10 -/

/-- Claim C10: each `returning()` call wholesale replaces any previously set
RETURNING column list — chaining two calls equals making only the second —
and the construct it starts from is otherwise untouched (the generative
clone differs from `s` in the `_returning` slot alone). -/
theorem c10_returning_replaces (s : Stmt) (a b : List Nat) :
    returningM (returningM s a) b = returningM s b ∧
    (returningM (returningM s a) b).returning_ = some b ∧
    returningM s a = { s with returning_ := some a } :=
  ⟨rfl, rfl, rfl⟩

end SqlSpec
